import Mathlib

/-!
Verification of the whole-lot removal allocation engine
(`stock_whole_lot_removal`: `models/stock_quant.py`, `models/stock_move.py`,
`models/stock_picking.py`).

Shallow embedding conventions:
* Quantities are exact integers (`Int`).  The source compares floats through
  `float_compare`/`float_is_zero` with the product UoM rounding; here those
  comparisons are exact comparisons on `Int`, so "within rounding tolerance"
  becomes exact (in)equality.
* Unit-of-measure conversion (`_compute_quantity`) is an external collaborator
  assumed correct; demands and move-line quantities are modelled directly in
  product units, so the conversion is the identity.
* The resource ledger (`stock.quant`) is modelled by explicit lists of quant
  records and, where the code calls `_update_reserved_quantity`, by an oracle
  function describing the ledger's answer for each call.
* Records gathered by `_gather` are given as an input list in the gathered
  order; every gathered quant carries a lot (the strategy gate only admits
  lot/serial tracked products, whose quants all carry lots).
-/

/-- Lot identity (`stock.lot` id). -/
abbrev LotId := Nat

/-- A resource record (`stock.quant`): physical quantity, reserved quantity,
arrival timestamp (`in_date`, `none` when null). -/
structure Quant where
  lot : LotId
  quantity : Int
  reservedQuantity : Int
  inDate : Option Nat
deriving DecidableEq

/-- A lot availability entry built by `_get_whole_lot_available_quants`:
one lot with its aggregated free quantity and the `in_date` of the first
gathered quant of that lot. -/
structure LotEntry where
  lot : LotId
  availableQty : Int
  inDate : Option Nat
deriving DecidableEq

/-- One step of the grouping dict `lot_data` in
`_get_whole_lot_available_quants`: fold a gathered quant into the list of
entries (dict insertion order = first appearance order). -/
def addQuant (acc : List LotEntry) (q : Quant) : List LotEntry :=
  if acc.any (fun e => e.lot == q.lot) then
    acc.map (fun e =>
      if e.lot = q.lot then
        { e with availableQty := e.availableQty + (q.quantity - q.reservedQuantity) }
      else e)
  else
    acc ++ [{ lot := q.lot,
              availableQty := q.quantity - q.reservedQuantity,
              inDate := q.inDate }]

/-- The grouping loop of `_get_whole_lot_available_quants`. -/
def groupByLot (qs : List Quant) : List LotEntry :=
  qs.foldl addQuant []

/-- Sort key used by `available_lots.sort(key=lambda x: (x['in_date'] or ''))`:
a null date sorts before every real date. -/
def dateKey : Option Nat → Nat
  | none => 0
  | some t => t + 1

/-- The comparison underlying the Python stable sort on the date key. -/
def dateLe (a b : LotEntry) : Prop := dateKey a.inDate ≤ dateKey b.inDate

instance : DecidableRel dateLe := fun a b => by
  unfold dateLe; infer_instance

instance : IsTotal LotEntry dateLe :=
  ⟨fun a b => Nat.le_total (dateKey a.inDate) (dateKey b.inDate)⟩

instance : IsTrans LotEntry dateLe :=
  ⟨fun _ _ _ h h' => Nat.le_trans h h'⟩

/-- `_get_whole_lot_available_quants`: group the gathered quants by lot, keep
the entries with strictly positive aggregated free quantity, sort ascending by
arrival date (stable sort, nulls first).  Read-only: a pure function. -/
def get_whole_lot_available_quants (qs : List Quant) : List LotEntry :=
  ((groupByLot qs).filter (fun e => 0 < e.availableQty)).insertionSort dateLe

/-- Greedy FIFO pass of `_whole_lot_select_lots` (step 2): accept an entry iff
its full quantity fits within the remaining need; stop as soon as the
remaining need reaches zero.  Returns the selection and the remaining need. -/
def greedyAcc : List LotEntry → Int → List LotEntry × Int
  | [], rem => ([], rem)
  | l :: ls, rem =>
    if l.availableQty ≤ rem then
      if rem - l.availableQty = 0 then ([l], 0)
      else
        let r := greedyAcc ls (rem - l.availableQty)
        (l :: r.1, r.2)
    else greedyAcc ls rem

/-- `_whole_lot_select_lots`: exact single-lot match first, then greedy FIFO
accumulation, then a gap-fill pass over the still unselected entries. -/
def whole_lot_select_lots (lots : List LotEntry) (need : Int) : List LotEntry :=
  if lots.isEmpty then []
  else
    match lots.find? (fun l => l.availableQty == need) with
    | some l => [l]
    | none =>
      let g := greedyAcc lots need
      if 0 < g.2 then
        let selIds := g.1.map (fun d => d.lot)
        match lots.find? (fun l => !(selIds.contains l.lot) && l.availableQty == g.2) with
        | some l => g.1 ++ [l]
        | none => g.1
      else g.1

/-! ## Demand lines (`stock.move`) and the reservation executor -/

/-- Demand line states (`stock.move.state`).  `partAvail` stands for the
source's `partially_available`. -/
inductive MState
  | waiting
  | confirmed
  | partAvail
  | assigned
  | done
  | cancelled
deriving DecidableEq

/-- A demand line: state, demand (`product_uom_qty` converted to product
units) and currently reserved quantity (`_get_reserved_qty`, the total of
its move lines in product units). -/
structure Move where
  state : MState
  demand : Int
  reserved : Int
deriving DecidableEq

/-- An allocation record (`stock.move.line`) created by the executor. -/
structure MoveLine where
  lot : LotId
  qty : Int
deriving DecidableEq

/-- Outcome of one `_update_reserved_quantity` ledger call: a raised
ledger-level error, or the actually reserved delta. -/
inductive ReserveOutcome
  | err
  | ok (q : Int)
deriving DecidableEq

/-- The states accepted by `_assign_whole_lots` / `_action_assign`:
`('confirmed', 'partially_available', 'waiting')`. -/
def actionable (s : MState) : Bool :=
  s == .confirmed || s == .partAvail || s == .waiting

/-- One iteration of the reservation loop in `_assign_whole_lots`: skip
non-positive entries, skip a raised ledger error, skip a zero delta; a
positive actual delta creates an allocation record and accumulates. -/
def execStep (f : LotId → Int → ReserveOutcome) (acc : List MoveLine × Int)
    (ld : LotEntry) : List MoveLine × Int :=
  if ld.availableQty ≤ 0 then acc
  else
    match f ld.lot ld.availableQty with
    | .err => acc
    | .ok r => if 0 < r then (acc.1 ++ [⟨ld.lot, r⟩], acc.2 + r) else acc

/-- The reservation loop of `_assign_whole_lots` over a selection, starting
from no records and zero total. -/
def execSelection (f : LotId → Int → ReserveOutcome) (sel : List LotEntry) :
    List MoveLine × Int :=
  sel.foldl (execStep f) ([], 0)

/-- The allocation record (if any) that the executor produces for a single
selected entry. -/
def lineOf (f : LotId → Int → ReserveOutcome) (ld : LotEntry) : Option MoveLine :=
  if ld.availableQty ≤ 0 then none
  else
    match f ld.lot ld.availableQty with
    | .err => none
    | .ok r => if 0 < r then some ⟨ld.lot, r⟩ else none

/-- Total quantity of a list of allocation records. -/
def linesTotal (ls : List MoveLine) : Int :=
  (ls.map (fun ml => ml.qty)).sum

/-- `_assign_whole_lots` for one move: compute the need, aggregate and select
lots, run the reservation loop, then update the state exactly as the source
does (`assigned` when the re-read reserved quantity reaches the demand,
`partially_available` otherwise, no write when nothing was reserved).
`f` is the ledger oracle, `qs` the quants gathered at the source location. -/
def assign_whole_lots (f : LotId → Int → ReserveOutcome) (qs : List Quant)
    (mv : Move) : Move × List MoveLine :=
  if ¬ actionable mv.state then (mv, [])
  else
    let need := mv.demand - mv.reserved
    if need ≤ 0 then (mv, [])
    else
      let avail := get_whole_lot_available_quants qs
      if avail.isEmpty then (mv, [])
      else
        let sel := whole_lot_select_lots avail need
        if sel.isEmpty then (mv, [])
        else
          let res := execSelection f sel
          if 0 < res.2 then
            let newReserved := mv.reserved + res.2
            if mv.demand ≤ newReserved then
              ({ mv with state := .assigned, reserved := newReserved }, res.1)
            else
              ({ mv with state := .partAvail, reserved := newReserved }, res.1)
          else (mv, res.1)

/-! ## Strategy gate and `_action_assign` routing -/

/-- Product tracking (`product.tracking`). -/
inductive Tracking
  | noTracking
  | lot
  | serial
deriving DecidableEq

/-- The context `_should_use_whole_lot_strategy` and `_action_assign` read
from a move: its product's tracking, the removal-strategy method of the
product category (if a strategy is set), the removal-strategy methods along
the source location's ancestor chain (the location itself first), and the
states of the `move_orig_ids`. -/
structure MoveCtx where
  move : Move
  tracking : Tracking
  categMethod : Option String
  locMethods : List (Option String)
  origStates : List MState
deriving DecidableEq

/-- `_should_use_whole_lot_strategy`: lot/serial tracking required; the
product category's removal strategy is checked first, then the source
location's ancestor chain. -/
def shouldUseWholeLotStrategy (m : MoveCtx) : Bool :=
  if m.tracking ≠ Tracking.lot ∧ m.tracking ≠ Tracking.serial then false
  else if m.categMethod = some "whole_lot" then true
  else m.locMethods.any (fun x => x == some "whole_lot")

/-- How `_action_assign` routes one move. -/
inductive Route
  | regular
  | deferred
  | wholeLot
deriving DecidableEq

/-- The partition performed by `_action_assign`: standard Odoo logic for
non-actionable or non-whole-lot moves; moves with origin moves are deferred
(collected into `whole_lot_deferred`, for which the pass does nothing);
whole-lot moves without origin moves are assigned in the pass. -/
def classifyMove (m : MoveCtx) : Route :=
  if ¬ (actionable m.move.state && shouldUseWholeLotStrategy m) then .regular
  else if m.origStates.isEmpty then .wholeLot
  else .deferred

/-- Effect of one `_action_assign` pass on one move.  `std` is the external
standard reservation logic (`super()._action_assign`). -/
def action_assign_move (std : Move → Move × List MoveLine)
    (f : LotId → Int → ReserveOutcome) (qs : List Quant) (m : MoveCtx) :
    Move × List MoveLine :=
  match classifyMove m with
  | .regular => std m.move
  | .deferred => (m.move, [])
  | .wholeLot => assign_whole_lots f qs m.move

/-! ## Multi-step propagation (`stock_picking.py` / `stock_move.py`) -/

/-- A move line as read on other moves (origin moves, backorder moves,
sale-order moves): an optional lot and a quantity. -/
structure BOLine where
  lot : Option LotId
  qty : Int
deriving DecidableEq

/-- An upstream (origin) move: its state and its move lines. -/
structure OrigMove where
  state : MState
  lines : List BOLine
deriving DecidableEq

/-- Free quantity of a lot at the move's source location:
`sum(q.quantity - q.reserved_quantity)` over the quants gathered for that
lot. -/
def lotAvailable (qs : List Quant) (lot : LotId) : Int :=
  (((qs.filter (fun q => q.lot == lot)).map
      (fun q => q.quantity - q.reservedQuantity))).sum

/-- The `(lot, quantity)` pairs `_assign_whole_lots_from_origin` collects
from the `done` origin moves' move lines (lot present, positive quantity). -/
def originLotAssignments (origMoves : List OrigMove) : List (LotId × Int) :=
  (origMoves.filter (fun m => m.state == .done)).flatMap (fun m =>
    m.lines.filterMap (fun ml =>
      match ml.lot with
      | some l => if 0 < ml.qty then some (l, ml.qty) else none
      | none => none))

/-- One iteration of the reservation loop in `_assign_whole_lots_from_origin`:
skip non-positive propagated quantities, skip lots with no free quantity at
the downstream location, otherwise reserve the minimum of the propagated
quantity and the free quantity (skipping ledger errors and zero deltas). -/
def origStep (f : LotId → Int → ReserveOutcome) (qs : List Quant)
    (acc : List MoveLine × Int) (la : LotId × Int) : List MoveLine × Int :=
  if la.2 ≤ 0 then acc
  else
    let avail := lotAvailable qs la.1
    if avail ≤ 0 then acc
    else
      match f la.1 (min la.2 avail) with
      | .err => acc
      | .ok r => if 0 < r then (acc.1 ++ [⟨la.1, r⟩], acc.2 + r) else acc

/-- `_assign_whole_lots_from_origin` for one move: collect the lots the
`done` origin moves physically delivered; when none exist fall back to
`_assign_whole_lots`; otherwise reserve exactly those lots and update the
state like `_assign_whole_lots` does. -/
def assign_whole_lots_from_origin (f : LotId → Int → ReserveOutcome)
    (qs : List Quant) (origMoves : List OrigMove) (mv : Move) :
    Move × List MoveLine :=
  if ¬ actionable mv.state then (mv, [])
  else
    let need := mv.demand - mv.reserved
    if need ≤ 0 then (mv, [])
    else
      let las := originLotAssignments origMoves
      if las.isEmpty then assign_whole_lots f qs mv
      else
        let res := las.foldl (origStep f qs) ([], 0)
        if 0 < res.2 then
          let newReserved := mv.reserved + res.2
          if mv.demand ≤ newReserved then
            ({ mv with state := .assigned, reserved := newReserved }, res.1)
          else
            ({ mv with state := .partAvail, reserved := newReserved }, res.1)
        else (mv, res.1)

/-- `_propagate_whole_lots_to_next_step`: after a picking is validated, take
the destination moves of its `done` moves (`destMoves`), keep the actionable
whole-lot ones, and run `_action_assign` on them (the context key
`skip_whole_lot_strategy` it sets is never read by `_action_assign`). -/
def propagate_whole_lots_to_next_step (std : Move → Move × List MoveLine)
    (f : LotId → Int → ReserveOutcome) (qs : List Quant)
    (destMoves : List MoveCtx) : List (Move × List MoveLine) :=
  (destMoves.filter (fun m =>
      actionable m.move.state && shouldUseWholeLotStrategy m)).map
    (action_assign_move std f qs)

/-! ## Backorder reconciliation (`_assign_whole_lots_to_backorder`) -/

/-- The entitlement sources of a sale order line: the lot-breakdown JSON keys
(`x_lot_breakdown_json`), the selection snapshot (`x_selected_lots`) and the
live lot list (`lot_ids`). -/
structure SOLine where
  breakdownLots : List LotId
  selectedLots : List LotId
  liveLots : List LotId
deriving DecidableEq

/-- A move linked to the same sale order line, used for the delivered-lot
scan: its state and the lots of its move lines. -/
structure SOMove where
  state : MState
  lineLots : List (Option LotId)
deriving DecidableEq

/-- A backorder move: state, demand (product units) and its current move
lines. -/
structure BOMove where
  state : MState
  demand : Int
  lines : List BOLine
deriving DecidableEq

/-- The union of the sale order line's entitlement sources (a Python set:
modelled as the deduplicated list, membership is what matters). -/
def soAllLots (sol : SOLine) : List LotId :=
  (sol.breakdownLots ++ sol.selectedLots ++ sol.liveLots).dedup

/-- The lots appearing on move lines of the order's `done` moves. -/
def deliveredLots (soMoves : List SOMove) : List LotId :=
  ((soMoves.filter (fun m => m.state == .done)).flatMap
      (fun m => m.lineLots)).filterMap id

/-- Pending = entitlement sources minus delivered lots. -/
def pendingLots (sol : SOLine) (soMoves : List SOMove) : List LotId :=
  (soAllLots sol).filter (fun l => !((deliveredLots soMoves).contains l))

/-- The lots currently on the backorder move's lines. -/
def existingLots (mv : BOMove) : List LotId :=
  mv.lines.filterMap (fun ml => ml.lot)

/-- Python set equality between two lot collections: same members. -/
def lotSetEq (a b : List LotId) : Bool :=
  a.all (fun x => b.contains x) && b.all (fun x => a.contains x)

/-- The negative ledger updates released for the cleared move lines (one
`_update_reserved_quantity` with `-ml_qty` per lot-bearing line of positive
quantity). -/
def releaseOps (mv : BOMove) : List (LotId × Int) :=
  mv.lines.filterMap (fun ml =>
    ml.lot.bind (fun l => if 0 < ml.qty then some (l, -ml.qty) else none))

/-- The states accepted by the backorder loop:
`('confirmed', 'partially_available', 'waiting', 'assigned')`. -/
def boActionable (s : MState) : Bool :=
  s == .confirmed || s == .partAvail || s == .waiting || s == .assigned

/-- Per-lot step of the force-assign loop: gather the lot's quants, derive
the quantity to allocate (positive-quant total first, then the raw total,
then the reserved total for a residual quant), reserve the free quantity on
the ledger when there is one (skipping the lot on a ledger error), and build
the move line together with the ledger update it performs.  `none` means the
lot is skipped. -/
def boLotStep (ledgerOk : LotId → Int → Bool) (quantsOf : LotId → List Quant)
    (lot : LotId) : Option (BOLine × Option (LotId × Int)) :=
  let quants := quantsOf lot
  if quants.isEmpty then none
  else
    let totalQ := (quants.map (fun q => q.quantity)).sum
    let reservedQ := (quants.map (fun q => q.reservedQuantity)).sum
    let availQ := totalQ - reservedQ
    let realQ := ((quants.filter (fun q => 0 < q.quantity)).map
        (fun q => q.quantity)).sum
    let rq : Option Int :=
      if 0 < realQ then some realQ
      else if 0 < totalQ then some totalQ
      else if 0 < reservedQ then some reservedQ
      else none
    match rq with
    | none => none
    | some q =>
      if 0 < availQ then
        if ledgerOk lot availQ then some (⟨some lot, q⟩, some (lot, availQ))
        else none
      else some (⟨some lot, q⟩, none)

/-- Accumulating step of the force-assign loop. -/
def boStep (ledgerOk : LotId → Int → Bool) (quantsOf : LotId → List Quant)
    (acc : List BOLine × List (LotId × Int) × Int) (lot : LotId) :
    List BOLine × List (LotId × Int) × Int :=
  match boLotStep ledgerOk quantsOf lot with
  | none => acc
  | some (ln, op) => (acc.1 ++ [ln], acc.2.1 ++ op.toList, acc.2.2 + ln.qty)

/-- The force-assign loop over the pending lots: new move lines, ledger
updates, total reserved. -/
def boAssignPending (ledgerOk : LotId → Int → Bool)
    (quantsOf : LotId → List Quant) (lots : List LotId) :
    List BOLine × List (LotId × Int) × Int :=
  lots.foldl (boStep ledgerOk quantsOf) ([], [], 0)

/-- `_assign_whole_lots_to_backorder` for one backorder move.  `strategyOk`
is `_should_use_whole_lot_strategy` for the move, `ledgerOk` tells whether a
ledger reservation call succeeds, `quantsOf` is the per-lot `_gather`, `so`
the move's sale order line (`none` when absent).  The pending lots are
iterated in ascending lot id (the source iterates a Python set, whose order
is unspecified).  Returns the updated move (its lines replaced) and the list
of ledger updates performed. -/
def assign_whole_lots_to_backorder (strategyOk : Bool)
    (ledgerOk : LotId → Int → Bool) (quantsOf : LotId → List Quant)
    (so : Option SOLine) (soMoves : List SOMove) (mv : BOMove) :
    BOMove × List (LotId × Int) :=
  if ¬ (boActionable mv.state && strategyOk) then (mv, [])
  else
    match so with
    | none => (mv, [])
    | some sol =>
      if (soAllLots sol).isEmpty then (mv, [])
      else if (pendingLots sol soMoves).isEmpty then (mv, [])
      else if lotSetEq (existingLots mv) (pendingLots sol soMoves) then (mv, [])
      else
        let rel := releaseOps mv
        let res := boAssignPending ledgerOk quantsOf (pendingLots sol soMoves)
        let st :=
          if 0 < res.2.2 then
            if mv.demand ≤ res.2.2 then MState.assigned else MState.partAvail
          else mv.state
        ({ state := st, demand := mv.demand, lines := res.1 }, rel ++ res.2.1)

/-! ## Executor lemmas -/

lemma execStep_eq (f : LotId → Int → ReserveOutcome) (acc : List MoveLine × Int)
    (ld : LotEntry) :
    execStep f acc ld =
      match lineOf f ld with
      | none => acc
      | some ml => (acc.1 ++ [ml], acc.2 + ml.qty) := by
  unfold execStep lineOf
  by_cases h : ld.availableQty ≤ 0
  · simp [h]
  · simp only [h, if_false]
    cases f ld.lot ld.availableQty with
    | err => rfl
    | ok r =>
      by_cases hr : 0 < r
      · simp [hr]
      · simp [hr]

lemma foldl_execStep (f : LotId → Int → ReserveOutcome) :
    ∀ (sel : List LotEntry) (ls : List MoveLine) (t : Int),
      sel.foldl (execStep f) (ls, t) =
        (ls ++ sel.filterMap (lineOf f),
         t + linesTotal (sel.filterMap (lineOf f)))
  | [], ls, t => by simp [linesTotal]
  | ld :: rest, ls, t => by
    rw [List.foldl_cons, execStep_eq]
    cases h : lineOf f ld with
    | none =>
      rw [foldl_execStep f rest ls t]
      simp [List.filterMap_cons, h]
    | some ml =>
      rw [foldl_execStep f rest (ls ++ [ml]) (t + ml.qty)]
      simp [List.filterMap_cons, h, linesTotal]
      ring

/-- The executor produces exactly one allocation record per selected entry
whose ledger call succeeds with a positive delta, in selection order, and the
accumulated total is the total of those records. -/
lemma execSelection_eq (f : LotId → Int → ReserveOutcome) (sel : List LotEntry) :
    execSelection f sel =
      (sel.filterMap (lineOf f), linesTotal (sel.filterMap (lineOf f))) := by
  unfold execSelection
  rw [foldl_execStep]
  simp

lemma lineOf_pos (f : LotId → Int → ReserveOutcome) (ld : LotEntry)
    (ml : MoveLine) (h : lineOf f ld = some ml) : 0 < ml.qty := by
  unfold lineOf at h
  split at h
  · simp at h
  · split at h
    · simp at h
    · split at h
      · cases h
        assumption
      · simp at h

lemma linesTotal_nonneg {ls : List MoveLine} (h : ∀ ml ∈ ls, 0 < ml.qty) :
    0 ≤ linesTotal ls := by
  induction ls with
  | nil => simp [linesTotal]
  | cons ml rest ih =>
    have h1 := h ml (by simp)
    have h2 : 0 ≤ linesTotal rest := ih fun x hx => h x (by simp [hx])
    simp only [linesTotal, List.map_cons, List.sum_cons]
    have := le_of_lt h1
    simp only [linesTotal] at h2
    omega

lemma filterMap_lineOf_pos (f : LotId → Int → ReserveOutcome)
    (sel : List LotEntry) : ∀ ml ∈ sel.filterMap (lineOf f), 0 < ml.qty := by
  intro ml hml
  rw [List.mem_filterMap] at hml
  obtain ⟨ld, _, h⟩ := hml
  exact lineOf_pos f ld ml h

/-! ## Selector total bound -/

/-- Total free quantity of a selection. -/
def selTotal (ls : List LotEntry) : Int :=
  (ls.map (fun l => l.availableQty)).sum

lemma greedyAcc_spec :
    ∀ (lots : List LotEntry) (rem : Int), 0 ≤ rem →
      0 ≤ (greedyAcc lots rem).2 ∧
      selTotal (greedyAcc lots rem).1 + (greedyAcc lots rem).2 = rem
  | [], rem, h => by simpa [greedyAcc, selTotal] using h
  | l :: ls, rem, h => by
    unfold greedyAcc
    by_cases h1 : l.availableQty ≤ rem
    · rw [if_pos h1]
      by_cases h2 : rem - l.availableQty = 0
      · rw [if_pos h2]
        constructor
        · exact le_refl 0
        · simp [selTotal]; omega
      · rw [if_neg h2]
        have h3 : 0 ≤ rem - l.availableQty := by omega
        obtain ⟨ih1, ih2⟩ := greedyAcc_spec ls (rem - l.availableQty) h3
        constructor
        · exact ih1
        · simp only [selTotal, List.map_cons, List.sum_cons] at *
          omega
    · rw [if_neg h1]
      exact greedyAcc_spec ls rem h

/-- The selection algorithm never returns a selection whose total exceeds the
demand. -/
lemma whole_lot_select_no_overshoot (lots : List LotEntry) (need : Int)
    (h : 0 ≤ need) : selTotal (whole_lot_select_lots lots need) ≤ need := by
  unfold whole_lot_select_lots
  by_cases he : lots.isEmpty
  · rw [if_pos he]
    simpa [selTotal] using h
  · rw [if_neg he]
    split
    next l hf =>
      have := List.find?_some hf
      have hl : l.availableQty = need := by simpa using this
      simp [selTotal, hl]
    next hf =>
      obtain ⟨hg1, hg2⟩ := greedyAcc_spec lots need h
      by_cases hrem : 0 < (greedyAcc lots need).2
      · rw [if_pos hrem]
        dsimp only
        split
        next l hf2 =>
          have := List.find?_some hf2
          have hl : l.availableQty = (greedyAcc lots need).2 := by
            have hb := (Bool.and_eq_true _ _).mp this
            simpa using hb.2
          simp only [selTotal, List.map_append, List.sum_append, List.map_cons,
            List.sum_cons, List.map_nil, List.sum_nil]
          simp only [selTotal] at hg2
          omega
        next hf2 =>
          simp only [selTotal] at hg2 ⊢
          omega
      · rw [if_neg hrem]
        simp only [selTotal] at hg2 ⊢
        omega

/-! ## Claim theorems: executor and state machine -/

/-- Claim C8 — single-lot failure resilience: when the ledger call for one
lot in the selection raises an error or yields a zero delta, the executor's
result is exactly the result for the selection without that lot: no record is
created for it, every other lot (before and after it) is still attempted and
its records are kept, and the executor returns normally. -/
theorem c8_single_lot_failure (f : LotId → Int → ReserveOutcome)
    (s1 s2 : List LotEntry) (ld : LotEntry)
    (h : f ld.lot ld.availableQty = .err ∨ f ld.lot ld.availableQty = .ok 0) :
    execSelection f (s1 ++ ld :: s2) = execSelection f (s1 ++ s2) := by
  have hld : lineOf f ld = none := by
    unfold lineOf
    split
    · rfl
    · rcases h with h | h <;> simp [h]
  rw [execSelection_eq, execSelection_eq]
  simp [List.filterMap_append, List.filterMap_cons, hld]

/-- Witness for C8: lot 2's ledger call fails; lots 1 and 3 are still
reserved exactly as without lot 2. -/
theorem c8_single_lot_failure_witness :
    execSelection (fun l q => if l == 2 then ReserveOutcome.err else ReserveOutcome.ok q)
        ([⟨1, 5, none⟩] ++ ⟨2, 7, none⟩ :: [⟨3, 4, none⟩]) =
      execSelection (fun l q => if l == 2 then ReserveOutcome.err else ReserveOutcome.ok q)
        ([⟨1, 5, none⟩] ++ [⟨3, 4, none⟩]) :=
  c8_single_lot_failure _ _ _ _ (Or.inl (by decide))

/-- Claim C7 — demand state machine: for an actionable move, an allocation
attempt that reserves nothing leaves the move unchanged; a positive attempt
leaving the total reserved quantity below the demand moves it to
`partially_available`; a positive attempt reaching the demand moves it to
`assigned`. -/
theorem c7_demand_state_machine (f : LotId → Int → ReserveOutcome)
    (qs : List Quant) (mv : Move) (h : actionable mv.state = true) :
    (linesTotal (assign_whole_lots f qs mv).2 = 0 →
        (assign_whole_lots f qs mv).1 = mv) ∧
    (0 < linesTotal (assign_whole_lots f qs mv).2 →
        mv.reserved + linesTotal (assign_whole_lots f qs mv).2 < mv.demand →
        (assign_whole_lots f qs mv).1.state = .partAvail) ∧
    (0 < linesTotal (assign_whole_lots f qs mv).2 →
        mv.demand ≤ mv.reserved + linesTotal (assign_whole_lots f qs mv).2 →
        (assign_whole_lots f qs mv).1.state = .assigned) := by
  unfold assign_whole_lots
  rw [if_neg (by simp [h])]
  by_cases h1 : mv.demand - mv.reserved ≤ 0
  · rw [if_pos h1]
    refine ⟨fun _ => rfl, ?_, ?_⟩ <;> intro ht
    all_goals simp [linesTotal] at ht
  · rw [if_neg h1]
    by_cases h2 : (get_whole_lot_available_quants qs).isEmpty
    · rw [if_pos h2]
      refine ⟨fun _ => rfl, ?_, ?_⟩ <;> intro ht
      all_goals simp [linesTotal] at ht
    · rw [if_neg h2]
      by_cases h3 : (whole_lot_select_lots (get_whole_lot_available_quants qs)
          (mv.demand - mv.reserved)).isEmpty
      · rw [if_pos h3]
        refine ⟨fun _ => rfl, ?_, ?_⟩ <;> intro ht
        all_goals simp [linesTotal] at ht
      · rw [if_neg h3]
        rw [execSelection_eq]
        set L := (whole_lot_select_lots (get_whole_lot_available_quants qs)
          (mv.demand - mv.reserved)).filterMap (lineOf f) with hL
        have hpos : ∀ ml ∈ L, 0 < ml.qty := filterMap_lineOf_pos f _
        have hnn : 0 ≤ linesTotal L := linesTotal_nonneg hpos
        by_cases h4 : 0 < linesTotal L
        · rw [if_pos h4]
          by_cases h5 : mv.demand ≤ mv.reserved + linesTotal L
          · rw [if_pos h5]
            dsimp only
            refine ⟨?_, ?_, fun _ _ => rfl⟩
            · intro ht; omega
            · intro ht hd; exfalso; omega
          · rw [if_neg h5]
            dsimp only
            refine ⟨?_, fun _ _ => rfl, ?_⟩
            · intro ht; omega
            · intro ht hd; exfalso; omega
        · rw [if_neg h4]
          dsimp only
          refine ⟨fun _ => rfl, ?_, ?_⟩ <;> intro ht
          · exact fun _ => absurd ht h4
          · exact fun _ => absurd ht h4

/-- Witness for C7: a waiting move with demand 5, one lot of 5 free, a ledger
granting the full amount: the attempt reserves 5 and the move becomes
`assigned`. -/
theorem c7_demand_state_machine_witness :
    (assign_whole_lots (fun _ q => ReserveOutcome.ok q) [⟨1, 5, 0, some 3⟩]
        ⟨.waiting, 5, 0⟩).1.state = .assigned := by
  have h := c7_demand_state_machine (fun _ q => ReserveOutcome.ok q)
    [⟨1, 5, 0, some 3⟩] ⟨.waiting, 5, 0⟩ (by decide)
  exact h.2.2 (by decide) (by decide)

/-! ## Claim theorems: routing, deferral and the strategy gate -/

/-- Claim C9 — deferral: in an `_action_assign` pass, an actionable
whole-lot move with an unfinished upstream move is deferred: the pass leaves
it unchanged, creates no allocation record and never consults the ledger
(the conclusion holds for every ledger oracle `f`); an actionable whole-lot
move without upstream moves is allocated in the same pass via
`_assign_whole_lots`. -/
theorem c9_deferral (std : Move → Move × List MoveLine)
    (f : LotId → Int → ReserveOutcome) (qs : List Quant) (m : MoveCtx)
    (hw : shouldUseWholeLotStrategy m = true)
    (ha : actionable m.move.state = true) :
    ((∃ s ∈ m.origStates, s ≠ MState.done) →
        action_assign_move std f qs m = (m.move, [])) ∧
    (m.origStates = [] →
        action_assign_move std f qs m = assign_whole_lots f qs m.move) := by
  constructor
  · rintro ⟨s, hs, _⟩
    have hne : m.origStates ≠ [] := by
      intro hnil
      rw [hnil] at hs
      simp at hs
    unfold action_assign_move classifyMove
    rw [if_neg (by simp [hw, ha])]
    rw [if_neg (by simpa using hne)]
  · intro hnil
    unfold action_assign_move classifyMove
    rw [if_neg (by simp [hw, ha])]
    rw [if_pos (by simp [hnil])]

/-- Witness for C9: a whole-lot move with a confirmed (unfinished) origin
move is left untouched by the pass. -/
theorem c9_deferral_witness :
    action_assign_move (fun mv => (mv, [])) (fun _ q => ReserveOutcome.ok q) []
        ⟨⟨.waiting, 5, 0⟩, .lot, some "whole_lot", [], [.confirmed]⟩ =
      (⟨.waiting, 5, 0⟩, []) := by
  have h := c9_deferral (fun mv => (mv, [])) (fun _ q => ReserveOutcome.ok q) []
    ⟨⟨.waiting, 5, 0⟩, .lot, some "whole_lot", [], [.confirmed]⟩
    (by decide) (by decide)
  exact h.1 ⟨.confirmed, by decide, by decide⟩

/-- Claim C10 — strategy gate: a move of a product tracked neither by lot
nor by serial never uses the whole-lot strategy and is routed to the
standard reservation logic; for a lot/serial tracked product the strategy
applies exactly when the product category's removal strategy method is
`whole_lot` or some location of the source location's ancestor chain
(itself included) has removal strategy method `whole_lot`. -/
theorem c10_strategy_gate (m : MoveCtx) :
    (m.tracking ≠ Tracking.lot ∧ m.tracking ≠ Tracking.serial →
        shouldUseWholeLotStrategy m = false ∧
        ∀ (std : Move → Move × List MoveLine)
          (f : LotId → Int → ReserveOutcome) (qs : List Quant),
          action_assign_move std f qs m = std m.move) ∧
    (m.tracking = Tracking.lot ∨ m.tracking = Tracking.serial →
        (shouldUseWholeLotStrategy m = true ↔
          m.categMethod = some "whole_lot" ∨ some "whole_lot" ∈ m.locMethods)) := by
  constructor
  · intro ht
    have hfalse : shouldUseWholeLotStrategy m = false := by
      unfold shouldUseWholeLotStrategy
      rw [if_pos ht]
    refine ⟨hfalse, ?_⟩
    intro std f qs
    unfold action_assign_move classifyMove
    rw [if_pos (by simp [hfalse])]
  · intro ht
    unfold shouldUseWholeLotStrategy
    rw [if_neg (by tauto)]
    by_cases hc : m.categMethod = some "whole_lot"
    · rw [if_pos hc]
      simp [hc]
    · rw [if_neg hc]
      constructor
      · intro hany
        right
        rw [List.any_eq_true] at hany
        obtain ⟨x, hx, hbe⟩ := hany
        have hx' : x = some "whole_lot" := by simpa using hbe
        rwa [hx'] at hx
      · intro hor
        rcases hor with hor | hor
        · exact absurd hor hc
        · rw [List.any_eq_true]
          exact ⟨some "whole_lot", hor, by simp⟩

/-- Witness for C10: a lot-tracked product whose source location chain ends
in a `whole_lot` location uses the strategy; an untracked product with a
`whole_lot` category does not. -/
theorem c10_strategy_gate_witness :
    shouldUseWholeLotStrategy
        ⟨⟨.confirmed, 5, 0⟩, .lot, none, [some "fifo", some "whole_lot"], []⟩ = true ∧
    shouldUseWholeLotStrategy
        ⟨⟨.confirmed, 5, 0⟩, .noTracking, some "whole_lot", [], []⟩ = false := by
  constructor
  · exact ((c10_strategy_gate _).2 (Or.inl rfl)).mpr (Or.inr (by decide))
  · exact ((c10_strategy_gate _).1 (by decide)).1

/-! ## Claim theorems: selector examples -/

/-- Claim C6 — FIFO greedy fallback: with lots of free quantities 8, 6, 10
in arrival order and a demand of 15, the selector returns exactly the 8-lot
and the 6-lot (total 14): the 10-lot is neither returned alone nor added
(overshoot) nor split. -/
theorem c6_fifo_greedy_fallback :
    whole_lot_select_lots [⟨1, 8, some 1⟩, ⟨2, 6, some 2⟩, ⟨3, 10, some 3⟩] 15 =
      [⟨1, 8, some 1⟩, ⟨2, 6, some 2⟩] := by decide

/-- Counterexample for C4: with lots 5, 9, 4 in arrival order and demand 9
the selector does not return the claimed selection (the 5-lot then the
4-lot). -/
theorem c4_gap_fill_counterexample :
    whole_lot_select_lots [⟨1, 5, some 1⟩, ⟨2, 9, some 2⟩, ⟨3, 4, some 3⟩] 9 ≠
      [⟨1, 5, some 1⟩, ⟨3, 4, some 3⟩] := by decide

/-- Claim C4 (amended) — with lots 5, 9, 4 in arrival order and demand 9 the
exact single-lot pass fires before the greedy pass, so the returned
selection is exactly the 9-lot. -/
theorem c4_exact_match_first :
    whole_lot_select_lots [⟨1, 5, some 1⟩, ⟨2, 9, some 2⟩, ⟨3, 4, some 3⟩] 9 =
      [⟨2, 9, some 2⟩] := by decide

/-! ## Aggregator lemmas (grouping, sorting, stability) -/

/-- Aggregated free quantity of a lot over a quant list. -/
def lotFreeSum : List Quant → LotId → Int
  | [], _ => 0
  | q :: qs, l =>
    (if q.lot = l then q.quantity - q.reservedQuantity else 0) + lotFreeSum qs l

/-- Total available quantity recorded for a lot in a list of entries. -/
def entrySum : List LotEntry → LotId → Int
  | [], _ => 0
  | e :: es, l => (if e.lot = l then e.availableQty else 0) + entrySum es l

lemma addQuant_map_lot (acc : List LotEntry) (q : Quant) :
    (addQuant acc q).map (fun e => e.lot) =
      if acc.any (fun e => e.lot == q.lot) then acc.map (fun e => e.lot)
      else acc.map (fun e => e.lot) ++ [q.lot] := by
  unfold addQuant
  by_cases ha : acc.any (fun e => e.lot == q.lot)
  · rw [if_pos ha, if_pos ha]
    rw [List.map_map]
    apply List.map_congr_left
    intro e _
    by_cases he : e.lot = q.lot <;> simp [he]
  · rw [if_neg ha, if_neg ha]
    simp

lemma mem_addQuant_map_lot (acc : List LotEntry) (q : Quant) (l : LotId) :
    l ∈ (addQuant acc q).map (fun e => e.lot) ↔
      l ∈ acc.map (fun e => e.lot) ∨ l = q.lot := by
  rw [addQuant_map_lot]
  by_cases ha : acc.any (fun e => e.lot == q.lot)
  · rw [if_pos ha]
    rw [List.any_eq_true] at ha
    obtain ⟨e, he, hbe⟩ := ha
    have helot : e.lot = q.lot := by simpa using hbe
    constructor
    · exact Or.inl
    · rintro (h | rfl)
      · exact h
      · exact helot ▸ List.mem_map_of_mem _ he
  · rw [if_neg ha]
    simp

lemma addQuant_nodup (acc : List LotEntry) (q : Quant)
    (h : (acc.map (fun e => e.lot)).Nodup) :
    ((addQuant acc q).map (fun e => e.lot)).Nodup := by
  rw [addQuant_map_lot]
  by_cases ha : acc.any (fun e => e.lot == q.lot)
  · rw [if_pos ha]; exact h
  · rw [if_neg ha]
    rw [List.nodup_append]
    refine ⟨h, List.nodup_singleton _, ?_⟩
    intro x hx hx2
    have hxq : x = q.lot := by simpa using hx2
    rw [List.mem_map] at hx
    obtain ⟨e, he, helot⟩ := hx
    have : ¬ (e.lot == q.lot) = true := by
      intro hc
      exact ha (List.any_eq_true.mpr ⟨e, he, hc⟩)
    exact this (by simp [helot, hxq])

lemma entrySum_eq_zero_of_not_mem (es : List LotEntry) (l : LotId)
    (h : l ∉ es.map (fun e => e.lot)) : entrySum es l = 0 := by
  induction es with
  | nil => rfl
  | cons e rest ih =>
    have h1 : e.lot ≠ l := by
      intro hc
      exact h (by simp [hc])
    have h2 : l ∉ rest.map (fun e => e.lot) := by
      intro hc
      exact h (by simp [hc])
    simp [entrySum, h1, ih h2]

lemma entrySum_map_update (q : Quant) (l : LotId) :
    ∀ (acc : List LotEntry), (acc.map (fun e => e.lot)).Nodup →
      q.lot ∈ acc.map (fun e => e.lot) →
      entrySum (acc.map (fun e =>
        if e.lot = q.lot then
          { e with availableQty := e.availableQty + (q.quantity - q.reservedQuantity) }
        else e)) l =
      entrySum acc l + (if q.lot = l then q.quantity - q.reservedQuantity else 0)
  | [], _, hmem => by simp at hmem
  | e :: rest, hnd, hmem => by
    rw [List.map_cons, List.nodup_cons] at hnd
    obtain ⟨hnotin, hndrest⟩ := hnd
    by_cases he : e.lot = q.lot
    · rw [List.map_cons, if_pos he]
      have hrest : rest.map (fun x =>
          if x.lot = q.lot then
            { x with availableQty := x.availableQty + (q.quantity - q.reservedQuantity) }
          else x) = rest := by
        conv_rhs => rw [← List.map_id rest]
        apply List.map_congr_left
        intro x hx
        have hne : x.lot ≠ q.lot := by
          intro hc
          exact hnotin (he ▸ hc ▸ List.mem_map_of_mem _ hx)
        rw [if_neg hne]
        rfl
      rw [hrest]
      by_cases hl : e.lot = l
      · have hql : q.lot = l := he ▸ hl
        simp [entrySum, hl, hql]
        ring
      · have hql : q.lot ≠ l := fun hc => hl (he.trans hc)
        simp [entrySum, hl, hql]
    · rw [List.map_cons, if_neg he]
      have hmem' : q.lot ∈ rest.map (fun e => e.lot) := by
        rcases List.mem_cons.mp hmem with hc | hc
        · exact absurd hc.symm he
        · exact hc
      simp only [entrySum]
      rw [entrySum_map_update q l rest hndrest hmem']
      ring

lemma entrySum_append (es1 es2 : List LotEntry) (l : LotId) :
    entrySum (es1 ++ es2) l = entrySum es1 l + entrySum es2 l := by
  induction es1 with
  | nil => simp [entrySum]
  | cons e rest ih =>
    rw [List.cons_append]
    simp only [entrySum]
    rw [ih]
    ring

lemma entrySum_addQuant (acc : List LotEntry) (q : Quant) (l : LotId)
    (hnd : (acc.map (fun e => e.lot)).Nodup) :
    entrySum (addQuant acc q) l =
      entrySum acc l + (if q.lot = l then q.quantity - q.reservedQuantity else 0) := by
  unfold addQuant
  by_cases ha : acc.any (fun e => e.lot == q.lot)
  · rw [if_pos ha]
    rw [List.any_eq_true] at ha
    obtain ⟨e, he, hbe⟩ := ha
    have helot : e.lot = q.lot := by simpa using hbe
    exact entrySum_map_update q l acc hnd (helot ▸ List.mem_map_of_mem _ he)
  · rw [if_neg ha]
    rw [entrySum_append]
    simp [entrySum]

lemma foldl_addQuant_nodup (qs : List Quant) :
    ∀ (acc : List LotEntry), (acc.map (fun e => e.lot)).Nodup →
      ((qs.foldl addQuant acc).map (fun e => e.lot)).Nodup := by
  induction qs with
  | nil => intro acc h; exact h
  | cons q rest ih =>
    intro acc h
    rw [List.foldl_cons]
    exact ih _ (addQuant_nodup acc q h)

lemma groupByLot_nodup (qs : List Quant) :
    ((groupByLot qs).map (fun e => e.lot)).Nodup :=
  foldl_addQuant_nodup qs [] (by simp)

lemma entrySum_foldl (qs : List Quant) :
    ∀ (acc : List LotEntry) (l : LotId), (acc.map (fun e => e.lot)).Nodup →
      entrySum (qs.foldl addQuant acc) l = entrySum acc l + lotFreeSum qs l := by
  induction qs with
  | nil => intro acc l _; simp [lotFreeSum]
  | cons q rest ih =>
    intro acc l hnd
    rw [List.foldl_cons]
    rw [ih (addQuant acc q) l (addQuant_nodup acc q hnd)]
    rw [entrySum_addQuant acc q l hnd]
    simp only [lotFreeSum]
    ring

lemma entrySum_groupByLot (qs : List Quant) (l : LotId) :
    entrySum (groupByLot qs) l = lotFreeSum qs l := by
  have := entrySum_foldl qs [] l (by simp)
  simpa [entrySum] using this

lemma mem_groupByLot_map_lot (qs : List Quant) :
    ∀ (acc : List LotEntry) (l : LotId),
      l ∈ (qs.foldl addQuant acc).map (fun e => e.lot) ↔
        l ∈ acc.map (fun e => e.lot) ∨ l ∈ qs.map (fun q => q.lot) := by
  induction qs with
  | nil => intro acc l; simp
  | cons q rest ih =>
    intro acc l
    rw [List.foldl_cons, ih (addQuant acc q) l, mem_addQuant_map_lot]
    simp only [List.map_cons, List.mem_cons]
    tauto

lemma mem_groupByLot (qs : List Quant) (l : LotId) :
    l ∈ (groupByLot qs).map (fun e => e.lot) ↔ l ∈ qs.map (fun q => q.lot) := by
  have h := mem_groupByLot_map_lot qs [] l
  unfold groupByLot
  simpa using h

lemma entrySum_of_mem (es : List LotEntry) (e : LotEntry)
    (hnd : (es.map (fun x => x.lot)).Nodup) (he : e ∈ es) :
    entrySum es e.lot = e.availableQty := by
  induction es with
  | nil => simp at he
  | cons a rest ih =>
    rw [List.map_cons, List.nodup_cons] at hnd
    obtain ⟨hnotin, hndrest⟩ := hnd
    rcases List.mem_cons.mp he with rfl | hmem
    · have : entrySum rest e.lot = 0 := entrySum_eq_zero_of_not_mem rest e.lot hnotin
      simp [entrySum, this]
    · have hne : a.lot ≠ e.lot := by
        intro hc
        exact hnotin (hc ▸ List.mem_map_of_mem _ hmem)
      simp [entrySum, hne, ih hndrest hmem]

lemma filter_orderedInsert_date (x : LotEntry) (l : List LotEntry)
    (d : Option Nat) :
    (l.orderedInsert dateLe x).filter (fun e => e.inDate == d) =
      if x.inDate = d then x :: l.filter (fun e => e.inDate == d)
      else l.filter (fun e => e.inDate == d) := by
  induction l with
  | nil =>
    by_cases hx : x.inDate = d
    · simp [List.orderedInsert, hx]
    · simp [List.orderedInsert, hx]
  | cons y ys ih =>
    rw [List.orderedInsert]
    by_cases hxy : dateLe x y
    · rw [if_pos hxy]
      by_cases hx : x.inDate = d
      · simp [List.filter_cons, hx]
      · simp [List.filter_cons, hx]
    · rw [if_neg hxy]
      have hk : dateKey y.inDate < dateKey x.inDate := by
        unfold dateLe at hxy
        omega
      by_cases hx : x.inDate = d
      · have hyd : y.inDate ≠ d := by
          intro hc
          rw [← hx] at hc
          rw [hc] at hk
          omega
        have hyb : (y.inDate == d) = false := by simpa using hyd
        rw [if_pos hx]
        simp only [List.filter_cons]
        rw [hyb]
        rw [if_neg Bool.false_ne_true, if_neg Bool.false_ne_true]
        rw [ih, if_pos hx]
      · rw [if_neg hx]
        simp only [List.filter_cons]
        rw [ih, if_neg hx]

lemma filter_insertionSort_date (l : List LotEntry) (d : Option Nat) :
    (l.insertionSort dateLe).filter (fun e => e.inDate == d) =
      l.filter (fun e => e.inDate == d) := by
  induction l with
  | nil => rfl
  | cons x xs ih =>
    rw [List.insertionSort]
    rw [filter_orderedInsert_date]
    by_cases hx : x.inDate = d
    · rw [if_pos hx, ih, List.filter_cons]
      simp [hx]
    · rw [if_neg hx, ih, List.filter_cons]
      simp [hx]

/-! ## Claim theorems: aggregator -/

/-- The ordering the claim asserts for the aggregator output, modelled from
the spec's words: ascending by arrival timestamp (nulls first) with ties
broken by lot identity. -/
def sortedByDateThenLot : List LotEntry → Bool
  | a :: b :: rest =>
    (Nat.blt (dateKey a.inDate) (dateKey b.inDate) ||
      (dateKey a.inDate == dateKey b.inDate && Nat.ble a.lot b.lot)) &&
    sortedByDateThenLot (b :: rest)
  | _ => true

/-- Counterexample for C5: two lots with the same arrival date keep the
gathered record order (lot 2's quant was gathered first), so the output is
not sorted by lot identity on the tie. -/
theorem c5_tie_break_counterexample :
    get_whole_lot_available_quants [⟨2, 5, 0, some 100⟩, ⟨1, 5, 0, some 100⟩] =
      [⟨2, 5, some 100⟩, ⟨1, 5, some 100⟩] ∧
    sortedByDateThenLot
      (get_whole_lot_available_quants
        [⟨2, 5, 0, some 100⟩, ⟨1, 5, 0, some 100⟩]) = false :=
  ⟨by decide, by decide⟩

/-- Claim C5 (amended) — the aggregator returns exactly the lots whose
aggregated free quantity (physical minus reserved summed over the gathered
quants) is strictly positive, each entry carrying that aggregated quantity,
sorted ascending by arrival timestamp with null timestamps first; entries
sharing a timestamp keep the first-appearance order of the gathered records
(a stable sort on the timestamp alone — ties are not broken by lot
identity).  The computation is a pure function (no writes). -/
theorem c5_aggregator_output (qs : List Quant) :
    (∀ e ∈ get_whole_lot_available_quants qs, 0 < e.availableQty) ∧
    (∀ e ∈ get_whole_lot_available_quants qs,
        e.availableQty = lotFreeSum qs e.lot) ∧
    (∀ l : LotId, (∃ e ∈ get_whole_lot_available_quants qs, e.lot = l) ↔
        (l ∈ qs.map (fun q => q.lot) ∧ 0 < lotFreeSum qs l)) ∧
    List.Sorted dateLe (get_whole_lot_available_quants qs) ∧
    (∀ d : Option Nat,
        (get_whole_lot_available_quants qs).filter (fun e => e.inDate == d) =
          ((groupByLot qs).filter (fun e => 0 < e.availableQty)).filter
            (fun e => e.inDate == d)) := by
  have hmem_out : ∀ e, e ∈ get_whole_lot_available_quants qs ↔
      e ∈ (groupByLot qs).filter (fun e => 0 < e.availableQty) := by
    intro e
    unfold get_whole_lot_available_quants
    exact List.mem_insertionSort dateLe
  have hmem_filter : ∀ e, e ∈ (groupByLot qs).filter (fun e => 0 < e.availableQty) ↔
      e ∈ groupByLot qs ∧ 0 < e.availableQty := by
    intro e
    rw [List.mem_filter]
    simp
  refine ⟨?_, ?_, ?_, ?_, ?_⟩
  · intro e he
    exact ((hmem_filter e).mp ((hmem_out e).mp he)).2
  · intro e he
    have hgrp := ((hmem_filter e).mp ((hmem_out e).mp he)).1
    rw [← entrySum_groupByLot qs e.lot]
    exact (entrySum_of_mem _ e (groupByLot_nodup qs) hgrp).symm
  · intro l
    constructor
    · rintro ⟨e, he, rfl⟩
      have hgrp := (hmem_filter e).mp ((hmem_out e).mp he)
      constructor
      · have hml : e.lot ∈ (groupByLot qs).map (fun e => e.lot) :=
          List.mem_map_of_mem _ hgrp.1
        exact (mem_groupByLot qs e.lot).mp hml
      · rw [← entrySum_groupByLot qs e.lot,
          entrySum_of_mem _ e (groupByLot_nodup qs) hgrp.1]
        exact hgrp.2
    · rintro ⟨hmem, hpos⟩
      have hml : l ∈ (groupByLot qs).map (fun e => e.lot) := by
        rw [mem_groupByLot]
        exact hmem
      rw [List.mem_map] at hml
      obtain ⟨e, he, rfl⟩ := hml
      refine ⟨e, ?_, rfl⟩
      rw [hmem_out, hmem_filter]
      refine ⟨he, ?_⟩
      rw [← entrySum_groupByLot qs e.lot,
        entrySum_of_mem _ e (groupByLot_nodup qs) he] at hpos
      exact hpos
  · exact List.sorted_insertionSort dateLe _
  · intro d
    unfold get_whole_lot_available_quants
    exact filter_insertionSort_date _ d

/-- Witness for C5: on a concrete gathered list the characterization places
lot 1 (free 5) in the output and excludes lot 3 (free 0). -/
theorem c5_aggregator_output_witness :
    (∃ e ∈ get_whole_lot_available_quants
        [⟨2, 5, 0, some 100⟩, ⟨1, 5, 0, some 100⟩, ⟨3, 0, 0, some 50⟩],
        e.lot = 1) ∧
    ¬ (∃ e ∈ get_whole_lot_available_quants
        [⟨2, 5, 0, some 100⟩, ⟨1, 5, 0, some 100⟩, ⟨3, 0, 0, some 50⟩],
        e.lot = 3) := by
  constructor
  · exact ((c5_aggregator_output _).2.2.1 1).mpr ⟨by decide, by decide⟩
  · intro hex
    have h := ((c5_aggregator_output _).2.2.1 3).mp hex
    exact absurd h.2 (by decide)

/-! ## Claim theorems: propagation and overshoot bugs -/

/-- Total quantity of a list of backorder/origin move lines. -/
def boLinesTotal (ls : List BOLine) : Int :=
  (ls.map (fun l => l.qty)).sum

/-- Claim C1 — the post-validation propagation composite
(`button_validate` → `_propagate_whole_lots_to_next_step` →
`_action_assign`) reserves nothing for a deferred downstream move whose
origin move is `done` with lot 1 (quantity 10) and whose location holds
exactly that lot free: the move is re-deferred (it has origin moves, and
the `skip_whole_lot_strategy` context is never read), so no allocation
record is created and the state stays `waiting`.  The uncalled routine
`_assign_whole_lots_from_origin` would have reserved exactly lot 1 with
quantity `min(10, 10)` and marked the move assigned. -/
theorem c1_propagation_reserves_nothing :
    propagate_whole_lots_to_next_step (fun mv => (mv, []))
        (fun _ q => ReserveOutcome.ok q) [⟨1, 10, 0, some 5⟩]
        [⟨⟨.waiting, 10, 0⟩, .lot, none, [some "whole_lot"], [.done]⟩] =
      [(⟨.waiting, 10, 0⟩, [])] ∧
    assign_whole_lots_from_origin (fun _ q => ReserveOutcome.ok q)
        [⟨1, 10, 0, some 5⟩] [⟨.done, [⟨some 1, 10⟩]⟩] ⟨.waiting, 10, 0⟩ =
      (⟨.assigned, 10, 10⟩, [⟨1, 10⟩]) :=
  ⟨by decide, by decide⟩

/-! ## Backorder reconciliation lemmas -/

lemma foldl_boStep (ledgerOk : LotId → Int → Bool)
    (quantsOf : LotId → List Quant) :
    ∀ (lots : List LotId) (a : List BOLine) (b : List (LotId × Int)) (c : Int),
      lots.foldl (boStep ledgerOk quantsOf) (a, b, c) =
        (a ++ lots.filterMap (fun l =>
            (boLotStep ledgerOk quantsOf l).map (fun p => p.1)),
         b ++ lots.filterMap (fun l =>
            (boLotStep ledgerOk quantsOf l).bind (fun p => p.2)),
         c + boLinesTotal (lots.filterMap (fun l =>
            (boLotStep ledgerOk quantsOf l).map (fun p => p.1))))
  | [], a, b, c => by simp [boLinesTotal]
  | l :: rest, a, b, c => by
    rw [List.foldl_cons]
    cases h : boLotStep ledgerOk quantsOf l with
    | none =>
      have hb : boStep ledgerOk quantsOf (a, b, c) l = (a, b, c) := by
        simp [boStep, h]
      rw [hb, foldl_boStep ledgerOk quantsOf rest a b c]
      simp [List.filterMap_cons, h]
    | some p =>
      obtain ⟨ln, op⟩ := p
      have hb : boStep ledgerOk quantsOf (a, b, c) l =
          (a ++ [ln], b ++ op.toList, c + ln.qty) := by
        simp [boStep, h]
      rw [hb, foldl_boStep ledgerOk quantsOf rest (a ++ [ln]) (b ++ op.toList)
        (c + ln.qty)]
      cases op with
      | none =>
        simp [List.filterMap_cons, h, boLinesTotal]
        ring
      | some o =>
        simp [List.filterMap_cons, h, boLinesTotal]
        ring

lemma boAssignPending_eq (ledgerOk : LotId → Int → Bool)
    (quantsOf : LotId → List Quant) (lots : List LotId) :
    boAssignPending ledgerOk quantsOf lots =
      (lots.filterMap (fun l =>
          (boLotStep ledgerOk quantsOf l).map (fun p => p.1)),
       lots.filterMap (fun l =>
          (boLotStep ledgerOk quantsOf l).bind (fun p => p.2)),
       boLinesTotal (lots.filterMap (fun l =>
          (boLotStep ledgerOk quantsOf l).map (fun p => p.1)))) := by
  unfold boAssignPending
  rw [foldl_boStep]
  simp

lemma boLotStep_lot (ledgerOk : LotId → Int → Bool)
    (quantsOf : LotId → List Quant) (lot : LotId)
    (p : BOLine × Option (LotId × Int))
    (h : boLotStep ledgerOk quantsOf lot = some p) : p.1.lot = some lot := by
  unfold boLotStep at h
  dsimp only at h
  split at h
  · simp at h
  · split at h
    · simp at h
    · split at h
      · split at h
        · cases h; rfl
        · simp at h
      · cases h; rfl

lemma sum_filter_pos_quantity (qs : List Quant)
    (h : ∀ q ∈ qs, 0 ≤ q.quantity) :
    ((qs.filter (fun q => 0 < q.quantity)).map (fun q => q.quantity)).sum =
      (qs.map (fun q => q.quantity)).sum := by
  induction qs with
  | nil => rfl
  | cons q rest ih =>
    have hq := h q (by simp)
    have ih' := ih (fun x hx => h x (by simp [hx]))
    rw [List.filter_cons]
    by_cases hpos : 0 < q.quantity
    · rw [if_pos (by simpa using hpos)]
      simp only [List.map_cons, List.sum_cons]
      rw [ih']
    · have hz : q.quantity = 0 := by omega
      rw [if_neg (by simpa using hpos)]
      simp only [List.map_cons, List.sum_cons]
      rw [ih', hz]
      ring

/-- The residual-quant branch of the force-assign loop: a pending lot whose
aggregate free quantity is not positive — its quants are pure residual
records (physical total zero) or a fully reserved total (free exactly zero)
— while its reserved total is positive, is allocated the reserved total
itself (for a fully reserved total the chosen quantity equals it), with no
ledger update, instead of being treated as unavailable. -/
lemma boLotStep_residual (ledgerOk : LotId → Int → Bool)
    (quantsOf : LotId → List Quant) (lot : LotId)
    (hne : (quantsOf lot).isEmpty = false)
    (hnn : ∀ q ∈ quantsOf lot, 0 ≤ q.quantity)
    (hcase : ((quantsOf lot).map (fun q => q.quantity)).sum = 0 ∨
        ((quantsOf lot).map (fun q => q.quantity)).sum -
          ((quantsOf lot).map (fun q => q.reservedQuantity)).sum = 0)
    (hres : 0 < ((quantsOf lot).map (fun q => q.reservedQuantity)).sum) :
    boLotStep ledgerOk quantsOf lot =
      some (⟨some lot, ((quantsOf lot).map (fun q => q.reservedQuantity)).sum⟩,
        none) := by
  unfold boLotStep
  dsimp only
  rw [if_neg (by simp [hne])]
  have hreal : (((quantsOf lot).filter (fun q => 0 < q.quantity)).map
      (fun q => q.quantity)).sum =
      ((quantsOf lot).map (fun q => q.quantity)).sum :=
    sum_filter_pos_quantity _ hnn
  rcases hcase with hzero | hfree0
  · rw [hreal, hzero]
    rw [if_neg (show ¬ (0:Int) < 0 by omega),
      if_neg (show ¬ (0:Int) < 0 by omega)]
    rw [if_pos hres]
    dsimp only
    rw [if_neg (show ¬ (0:Int) <
        0 - ((quantsOf lot).map (fun q => q.reservedQuantity)).sum by omega)]
  · have htr : ((quantsOf lot).map (fun q => q.quantity)).sum =
        ((quantsOf lot).map (fun q => q.reservedQuantity)).sum := by omega
    rw [hreal, htr]
    rw [if_pos hres]
    dsimp only
    rw [if_neg (show ¬ (0:Int) <
        ((quantsOf lot).map (fun q => q.reservedQuantity)).sum -
          ((quantsOf lot).map (fun q => q.reservedQuantity)).sum by omega)]

/-- The ordinary branch of the force-assign loop: a pending lot whose
aggregate free quantity is positive, with well-formed quants (non-negative
physical quantities, non-negative reserved total — the resource-record
invariant) and a ledger call that succeeds, is re-assigned: the loop
reserves the free quantity on the ledger and creates a move line carrying
the lot's physical total. -/
lemma boLotStep_available (ledgerOk : LotId → Int → Bool)
    (quantsOf : LotId → List Quant) (lot : LotId)
    (hne : (quantsOf lot).isEmpty = false)
    (hnn : ∀ q ∈ quantsOf lot, 0 ≤ q.quantity)
    (hrnn : 0 ≤ ((quantsOf lot).map (fun q => q.reservedQuantity)).sum)
    (havail : 0 < ((quantsOf lot).map (fun q => q.quantity)).sum -
        ((quantsOf lot).map (fun q => q.reservedQuantity)).sum)
    (hok : ledgerOk lot (((quantsOf lot).map (fun q => q.quantity)).sum -
        ((quantsOf lot).map (fun q => q.reservedQuantity)).sum) = true) :
    boLotStep ledgerOk quantsOf lot =
      some (⟨some lot, ((quantsOf lot).map (fun q => q.quantity)).sum⟩,
        some (lot, ((quantsOf lot).map (fun q => q.quantity)).sum -
          ((quantsOf lot).map (fun q => q.reservedQuantity)).sum)) := by
  unfold boLotStep
  dsimp only
  rw [if_neg (by simp [hne])]
  have hreal : (((quantsOf lot).filter (fun q => 0 < q.quantity)).map
      (fun q => q.quantity)).sum =
      ((quantsOf lot).map (fun q => q.quantity)).sum :=
    sum_filter_pos_quantity _ hnn
  rw [hreal]
  rw [if_pos (show (0:Int) <
      ((quantsOf lot).map (fun q => q.quantity)).sum by omega)]
  dsimp only
  rw [if_pos havail, if_pos hok]

/-- Claim C2 — backorder reconciliation.  Under the guard conditions of the
loop (actionable state, whole-lot strategy, a sale line with a nonempty
entitlement union, a nonempty pending set, and existing line lots differing
from the pending set): (a) every existing lot-bearing move line of positive
quantity gets a negative ledger update releasing its reservation, and
(b) every move line of the reconciled move carries a pending lot — the old
lines are deleted, so a wrongly assigned lot is never left allocated;
(c) a pending lot whose quants hold no physical quantity but a positive
reservation (a residual quant) is re-assigned with the reserved total as the
allocation quantity instead of being treated as unavailable; and (d) a
pending lot with a positive free quantity and well-formed quants whose
ledger call succeeds is re-assigned: it gets a move line carrying its
physical total and a positive ledger reservation of its free quantity. -/
theorem c2_backorder_reconciliation (strategyOk : Bool)
    (ledgerOk : LotId → Int → Bool) (quantsOf : LotId → List Quant)
    (sol : SOLine) (soMoves : List SOMove) (mv : BOMove)
    (hs : boActionable mv.state = true) (hst : strategyOk = true)
    (hall : (soAllLots sol).isEmpty = false)
    (hpend : (pendingLots sol soMoves).isEmpty = false)
    (hdiff : lotSetEq (existingLots mv) (pendingLots sol soMoves) = false) :
    (∀ ml ∈ mv.lines, ∀ l : LotId, ml.lot = some l → 0 < ml.qty →
        (l, -ml.qty) ∈ (assign_whole_lots_to_backorder strategyOk ledgerOk
          quantsOf (some sol) soMoves mv).2) ∧
    (∀ ln ∈ (assign_whole_lots_to_backorder strategyOk ledgerOk quantsOf
        (some sol) soMoves mv).1.lines,
        ∃ l : LotId, ln.lot = some l ∧ l ∈ pendingLots sol soMoves) ∧
    (∀ l ∈ pendingLots sol soMoves,
        (quantsOf l).isEmpty = false →
        (∀ q ∈ quantsOf l, 0 ≤ q.quantity) →
        (((quantsOf l).map (fun q => q.quantity)).sum = 0 ∨
          ((quantsOf l).map (fun q => q.quantity)).sum -
            ((quantsOf l).map (fun q => q.reservedQuantity)).sum = 0) →
        0 < ((quantsOf l).map (fun q => q.reservedQuantity)).sum →
        (⟨some l, ((quantsOf l).map (fun q => q.reservedQuantity)).sum⟩ : BOLine) ∈
          (assign_whole_lots_to_backorder strategyOk ledgerOk quantsOf
            (some sol) soMoves mv).1.lines) ∧
    (∀ l ∈ pendingLots sol soMoves,
        (quantsOf l).isEmpty = false →
        (∀ q ∈ quantsOf l, 0 ≤ q.quantity) →
        0 ≤ ((quantsOf l).map (fun q => q.reservedQuantity)).sum →
        0 < ((quantsOf l).map (fun q => q.quantity)).sum -
            ((quantsOf l).map (fun q => q.reservedQuantity)).sum →
        ledgerOk l (((quantsOf l).map (fun q => q.quantity)).sum -
            ((quantsOf l).map (fun q => q.reservedQuantity)).sum) = true →
        ((⟨some l, ((quantsOf l).map (fun q => q.quantity)).sum⟩ : BOLine) ∈
            (assign_whole_lots_to_backorder strategyOk ledgerOk quantsOf
              (some sol) soMoves mv).1.lines ∧
          (l, ((quantsOf l).map (fun q => q.quantity)).sum -
              ((quantsOf l).map (fun q => q.reservedQuantity)).sum) ∈
            (assign_whole_lots_to_backorder strategyOk ledgerOk quantsOf
              (some sol) soMoves mv).2)) := by
  unfold assign_whole_lots_to_backorder
  rw [if_neg (by simp [hs, hst])]
  dsimp only
  rw [if_neg (by simp [hall]), if_neg (by simp [hpend]),
    if_neg (by simp [hdiff])]
  rw [boAssignPending_eq]
  dsimp only
  refine ⟨?_, ?_, ?_, ?_⟩
  · intro ml hml l hlot hqty
    apply List.mem_append_left
    unfold releaseOps
    rw [List.mem_filterMap]
    refine ⟨ml, hml, ?_⟩
    rw [hlot]
    simp [hqty]
  · intro ln hln
    rw [List.mem_filterMap] at hln
    obtain ⟨l, hl, hmap⟩ := hln
    rw [Option.map_eq_some'] at hmap
    obtain ⟨p, hp, hp1⟩ := hmap
    refine ⟨l, ?_, hl⟩
    rw [← hp1]
    exact boLotStep_lot ledgerOk quantsOf l p hp
  · intro l hl hne hnn hcase hres0
    rw [List.mem_filterMap]
    refine ⟨l, hl, ?_⟩
    rw [boLotStep_residual ledgerOk quantsOf l hne hnn hcase hres0]
    rfl
  · intro l hl hne hnn hrnn havail hok
    have hstep := boLotStep_available ledgerOk quantsOf l hne hnn hrnn havail hok
    constructor
    · rw [List.mem_filterMap]
      refine ⟨l, hl, ?_⟩
      rw [hstep]
      rfl
    · apply List.mem_append_right
      rw [List.mem_filterMap]
      refine ⟨l, hl, ?_⟩
      rw [hstep]
      rfl

/-- Witness for C2 (the spec §8 scenario, A=1, B=2, C=3, D=4): entitlement
{1,2,3}, lot 1 delivered, wrong existing line on lot 4 — the reconciliation
issues the release (4, -5), re-assigns the available lot 2 (free 7) with a
move line of 7 and a ledger reservation of 7, and re-assigns lot 3 from its
residual quant (quantity 0, reserved 4) with quantity 4. -/
theorem c2_backorder_reconciliation_witness :
    ((4 : LotId), (-5 : Int)) ∈ (assign_whole_lots_to_backorder true
        (fun _ _ => true)
        (fun l => if l = 2 then [⟨2, 7, 0, none⟩]
                  else if l = 3 then [⟨3, 0, 4, none⟩]
                  else if l = 4 then [⟨4, 5, 5, none⟩] else [])
        (some ⟨[1, 2, 3], [], []⟩) [⟨.done, [some 1]⟩]
        ⟨.confirmed, 11, [⟨some 4, 5⟩]⟩).2 ∧
    (⟨some 2, 7⟩ : BOLine) ∈ (assign_whole_lots_to_backorder true
        (fun _ _ => true)
        (fun l => if l = 2 then [⟨2, 7, 0, none⟩]
                  else if l = 3 then [⟨3, 0, 4, none⟩]
                  else if l = 4 then [⟨4, 5, 5, none⟩] else [])
        (some ⟨[1, 2, 3], [], []⟩) [⟨.done, [some 1]⟩]
        ⟨.confirmed, 11, [⟨some 4, 5⟩]⟩).1.lines ∧
    ((2 : LotId), (7 : Int)) ∈ (assign_whole_lots_to_backorder true
        (fun _ _ => true)
        (fun l => if l = 2 then [⟨2, 7, 0, none⟩]
                  else if l = 3 then [⟨3, 0, 4, none⟩]
                  else if l = 4 then [⟨4, 5, 5, none⟩] else [])
        (some ⟨[1, 2, 3], [], []⟩) [⟨.done, [some 1]⟩]
        ⟨.confirmed, 11, [⟨some 4, 5⟩]⟩).2 ∧
    (⟨some 3, 4⟩ : BOLine) ∈ (assign_whole_lots_to_backorder true
        (fun _ _ => true)
        (fun l => if l = 2 then [⟨2, 7, 0, none⟩]
                  else if l = 3 then [⟨3, 0, 4, none⟩]
                  else if l = 4 then [⟨4, 5, 5, none⟩] else [])
        (some ⟨[1, 2, 3], [], []⟩) [⟨.done, [some 1]⟩]
        ⟨.confirmed, 11, [⟨some 4, 5⟩]⟩).1.lines := by
  have h := c2_backorder_reconciliation true (fun _ _ => true)
    (fun l => if l = 2 then [⟨2, 7, 0, none⟩]
              else if l = 3 then [⟨3, 0, 4, none⟩]
              else if l = 4 then [⟨4, 5, 5, none⟩] else [])
    ⟨[1, 2, 3], [], []⟩ [⟨.done, [some 1]⟩] ⟨.confirmed, 11, [⟨some 4, 5⟩]⟩
    (by decide) rfl (by decide) (by decide) (by decide)
  have h2 := h.2.2.2 2 (by decide) (by decide) (by decide) (by decide)
    (by decide) (by decide)
  refine ⟨?_, ?_, ?_, ?_⟩
  · exact h.1 ⟨some 4, 5⟩ (by decide) 4 rfl (by decide)
  · exact h2.1
  · exact h2.2
  · exact h.2.2.1 3 (by decide) (by decide) (by decide) (by decide) (by decide)

/-- Claim C3 — non-overshoot fails on the backorder reconciliation: a
backorder move with demand 5 whose pending entitlement is lot 2 with 10
free units receives an allocation record of quantity 10, so the sum of its
allocation record quantities (10) exceeds the requested quantity (5). -/
theorem c3_backorder_overshoot :
    (assign_whole_lots_to_backorder true (fun _ _ => true)
        (fun l => if l = 2 then [⟨2, 10, 0, none⟩] else [])
        (some ⟨[], [], [2]⟩) [] ⟨.confirmed, 5, []⟩).1.lines =
      [⟨some 2, 10⟩] ∧
    (assign_whole_lots_to_backorder true (fun _ _ => true)
        (fun l => if l = 2 then [⟨2, 10, 0, none⟩] else [])
        (some ⟨[], [], [2]⟩) [] ⟨.confirmed, 5, []⟩).1.demand <
      boLinesTotal (assign_whole_lots_to_backorder true (fun _ _ => true)
        (fun l => if l = 2 then [⟨2, 10, 0, none⟩] else [])
        (some ⟨[], [], [2]⟩) [] ⟨.confirmed, 5, []⟩).1.lines :=
  ⟨by decide, by decide⟩


